import Mathlib

/-!
Verification development for the viceroy benchmark-graph scripts
(src/examples/graph_stats.py and src/examples/igraph_stats.py).

The statistics-aggregation logic of the two scripts is embedded shallowly:
numeric dataframe columns are modelled over the rationals, a nullable cell
is an Option value, and a dataframe is a list of typed rows.  The sorting
performed by sort_values is modelled with insertion sort (any
comparison-correct sort; the library does not promise a stable order on
ties).  Rounding follows numpy round, which rounds half to even.
-/

namespace Viceroy

/-- Row of the model_stats relation, after numeric coercion.  The two
speed columns are nullable (NaN cells become none). -/
structure ModelRow where
  model_id : String
  percentage_correct : ℚ
  promptSpeed : Option ℚ
  tokenSpeed : Option ℚ
deriving DecidableEq

/-- Row of the benchmark_runs relation.  The correct cell is nullable;
the category column has already been filled with the sentinel
Uncategorized, as both scripts do right after loading. -/
structure RunRow where
  model_id : String
  category : String
  correct : Option ℚ
deriving DecidableEq

/-! ### C1: derivation of percentage_correct (graph_stats.py main, lines 517-526) -/

/-- Rounding half to even on the rationals, the rounding rule used by
numpy round. -/
def roundHalfEven (q : ℚ) : ℤ :=
  let f := ⌊q⌋
  let frac := q - (f : ℚ)
  if frac < 1/2 then f
  else if 1/2 < frac then f + 1
  else if Even f then f else f + 1

/-- Rounding to one decimal place, as numpy round(x, 1) does. -/
def roundTo1 (q : ℚ) : ℚ := (roundHalfEven (10 * q) : ℚ) / 10

/-- Derived percentage_correct column, from graph_stats.py main:
np.where(total_questions gt 0, correct_answers / total_questions * 100, 0)
followed by round(1).  The same formula appears in igraph_stats.load_db. -/
def derivedPercentage (correct total : ℚ) : ℚ :=
  roundTo1 (if 0 < total then correct / total * 100 else 0)

/-- C1: for a ModelStat row lacking a given percentage_correct, the derived
value equals round(100 * correct_answers / total_questions, 1) when
total_questions is positive and equals 0 when total_questions is 0; the
derivation is a total function on the rationals, so no division fault can
occur. -/
theorem derived_percentage_spec (C T : ℚ) :
    (0 < T → derivedPercentage C T = roundTo1 (100 * C / T)) ∧
    (T = 0 → derivedPercentage C T = 0) := by
  constructor
  · intro h
    unfold derivedPercentage
    rw [if_pos h, show C / T * 100 = 100 * C / T from by ring]
  · intro h
    subst h
    unfold derivedPercentage
    rw [if_neg (lt_irrefl 0)]
    norm_num [roundTo1, roundHalfEven]

/-- Witness for C1 at concrete inputs: 7 correct out of 3 questions derives
round(700/3, 1), and 5 recorded correct answers with 0 questions derive 0. -/
theorem derived_percentage_spec_witness :
    derivedPercentage 7 3 = roundTo1 (100 * 7 / 3) ∧ derivedPercentage 5 0 = 0 :=
  ⟨(derived_percentage_spec 7 3).1 (by norm_num), (derived_percentage_spec 5 0).2 rfl⟩

/-! ### C6: log-scale decision (apply_log_scale_if_needed, both scripts) -/

/-- Minimum of a list of rationals with a default for the empty list,
as positive_data.min() on a nonempty series. -/
def listMinD (l : List ℚ) (d : ℚ) : ℚ :=
  match l with
  | [] => d
  | x :: xs => xs.foldl min x

/-- Maximum of a list of rationals with a default for the empty list,
as positive_data.max() on a nonempty series. -/
def listMaxD (l : List ℚ) (d : ℚ) : ℚ :=
  match l with
  | [] => d
  | x :: xs => xs.foldl max x

/-- Threshold ratio for switching an axis to log scale
(LOG_SCALE_THRESHOLD_RATIO in both scripts). -/
def LOG_SCALE_THRESHOLD_RATIO : ℚ := 20

/-- Decision taken by apply_log_scale_if_needed: keep the strictly positive
values; if there are any, apply log scale exactly when max over min exceeds
the threshold ratio. -/
def logScaleDecision (values : List ℚ) : Bool :=
  let positives := values.filter (fun v => decide (0 < v))
  if positives = [] then false
  else
    decide (0 < listMaxD positives 0 ∧ 0 < listMinD positives 0 ∧
      LOG_SCALE_THRESHOLD_RATIO < listMaxD positives 0 / listMinD positives 0)

lemma foldl_min_pos (xs : List ℚ) (x : ℚ) (hx : 0 < x) (hxs : ∀ y ∈ xs, 0 < y) :
    0 < xs.foldl min x := by
  induction xs generalizing x with
  | nil => exact hx
  | cons y ys ih =>
      simp only [List.foldl_cons]
      exact ih (min x y) (lt_min hx (hxs y (List.mem_cons_self y ys)))
        (fun z hz => hxs z (List.mem_cons_of_mem y hz))

lemma foldl_max_pos (xs : List ℚ) (x : ℚ) (hx : 0 < x) :
    0 < xs.foldl max x := by
  induction xs generalizing x with
  | nil => exact hx
  | cons y ys ih =>
      simp only [List.foldl_cons]
      exact ih (max x y) (lt_max_of_lt_left hx)

lemma listMinD_pos (l : List ℚ) (hl : l ≠ []) (h : ∀ y ∈ l, 0 < y) :
    0 < listMinD l 0 := by
  match l with
  | [] => exact absurd rfl hl
  | x :: xs =>
      exact foldl_min_pos xs x (h x (List.mem_cons_self x xs))
        (fun z hz => h z (List.mem_cons_of_mem x hz))

lemma listMaxD_pos (l : List ℚ) (hl : l ≠ []) (h : ∀ y ∈ l, 0 < y) :
    0 < listMaxD l 0 := by
  match l with
  | [] => exact absurd rfl hl
  | x :: xs => exact foldl_max_pos xs x (h x (List.mem_cons_self x xs))

/-- C6: logScaleDecision returns true exactly when the list has a strictly
positive value and the ratio of the maximum to the minimum strictly-positive
value strictly exceeds 20; in particular it returns true on the input 1, 25
and false on the input 1, 15. -/
theorem log_scale_decision_spec (values : List ℚ) :
    (logScaleDecision values = true ↔
      (values.filter (fun v => decide (0 < v)) ≠ [] ∧
        LOG_SCALE_THRESHOLD_RATIO <
          listMaxD (values.filter (fun v => decide (0 < v))) 0 /
            listMinD (values.filter (fun v => decide (0 < v))) 0)) ∧
    logScaleDecision [1, 25] = true ∧ logScaleDecision [1, 15] = false := by
  refine ⟨?_, ?_, ?_⟩
  · unfold logScaleDecision
    by_cases h : values.filter (fun v => decide (0 < v)) = []
    · simp [h]
    · have hpos : ∀ y ∈ values.filter (fun v => decide (0 < v)), 0 < y := by
        intro y hy
        have := List.of_mem_filter hy
        exact of_decide_eq_true this
      simp only [if_neg h, decide_eq_true_eq]
      constructor
      · rintro ⟨-, -, hr⟩
        exact ⟨h, hr⟩
      · rintro ⟨-, hr⟩
        exact ⟨listMaxD_pos _ h hpos, listMinD_pos _ h hpos, hr⟩
  · norm_num [logScaleDecision, listMinD, listMaxD, LOG_SCALE_THRESHOLD_RATIO]
    exact List.cons_ne_nil _ _
  · norm_num [logScaleDecision, listMinD, listMaxD, LOG_SCALE_THRESHOLD_RATIO]

/-! ### C3: overall ranking (plot_overall_model_correctness_bar, graph_stats.py
lines 98-100: sort_values by percentage_correct descending, then head) -/

/-- Comparison realised by sort_values on percentage_correct with
ascending False: a precedes b when the percentage of b does not exceed the
percentage of a. -/
def pctGe (a b : ModelRow) : Prop :=
  b.percentage_correct ≤ a.percentage_correct

instance : DecidableRel pctGe := fun a b =>
  inferInstanceAs (Decidable (b.percentage_correct ≤ a.percentage_correct))

instance : IsTotal ModelRow pctGe :=
  ⟨fun a b => le_total b.percentage_correct a.percentage_correct⟩

instance : IsTrans ModelRow pctGe :=
  ⟨fun _ _ _ h1 h2 => le_trans h2 h1⟩

/-- Sorting of model_stats rows by percentage_correct, descending.  The
library sort promises only a comparison-correct order; insertion sort is
one such order. -/
def sortByCorrectnessDesc (rows : List ModelRow) : List ModelRow :=
  List.insertionSort pctGe rows

/-- Ranked overall statistics: sort descending by percentage_correct, keep
the first topN rows, read off (model_id, percentage_correct). -/
def overallStats (rows : List ModelRow) (topN : ℕ) : List (String × ℚ) :=
  ((sortByCorrectnessDesc rows).take topN).map
    (fun r => (r.model_id, r.percentage_correct))

/-- C3: overallStats output is sorted descending by percentage_correct and
has length at most min(topN, row count); on the rows A 80, B 60, C 90 with
topN = 2 it returns C 90 then A 80. -/
theorem overall_stats_ranking (rows : List ModelRow) (topN : ℕ) :
    List.Sorted (fun p q : String × ℚ => q.2 ≤ p.2) (overallStats rows topN) ∧
    (overallStats rows topN).length ≤ min topN rows.length ∧
    overallStats [⟨"A", 80, none, none⟩, ⟨"B", 60, none, none⟩, ⟨"C", 90, none, none⟩] 2
      = [("C", 90), ("A", 80)] := by
  refine ⟨?_, ?_, ?_⟩
  · have hs : List.Sorted pctGe (sortByCorrectnessDesc rows) :=
      List.sorted_insertionSort pctGe rows
    have ht : List.Sorted pctGe ((sortByCorrectnessDesc rows).take topN) :=
      List.Pairwise.sublist (List.take_sublist topN _) hs
    exact ht.map _ (fun _ _ h => h)
  · unfold overallStats
    rw [List.length_map, List.length_take]
    have : (sortByCorrectnessDesc rows).length = rows.length :=
      (List.perm_insertionSort pctGe rows).length_eq
    omega
  · norm_num [overallStats, sortByCorrectnessDesc, pctGe]

/-! ### C2: behaviour of the dataset state across a load
(BenchmarkApp.load_db, igraph_stats.py lines 594-643) -/

/-- In-memory dataset of the interactive session: the two module-level
dataframes df_model_stats_global and df_benchmark_runs_global. -/
structure Session where
  modelStats : List ModelRow
  runs : List RunRow
deriving DecidableEq

/-- Possible outcomes of one invocation of load_db.  cancelled is the user
closing the file dialog (falsy filepath, early return before the try
block); failure is any exception raised inside the try block (unreadable
file, missing table, malformed content), which lands in the except
handler; success carries the two freshly read relations. -/
inductive LoadAttempt where
  | cancelled
  | failure
  | success (ms : List ModelRow) (rs : List RunRow)

/-- State transition of the session dataset performed by load_db.  On
cancel the function returns before touching the globals.  On any exception
the except handler assigns a fresh empty DataFrame to both globals,
discarding whatever was loaded before.  On success both globals hold the
new relations (their numeric normalisation is modelled separately by
derivedPercentage). -/
def load_db (s : Session) (a : LoadAttempt) : Session :=
  match a with
  | .cancelled => s
  | .failure => ⟨[], []⟩
  | .success ms rs => ⟨ms, rs⟩

/-- C2 is false on the code: a failed load does not leave the previously
loaded dataset in place.  Concretely, starting from a session holding one
model row, a failing load leaves a session that differs from it. -/
theorem load_db_failure_not_atomic :
    load_db ⟨[⟨"A", 80, none, none⟩], []⟩ .failure ≠ ⟨[⟨"A", 80, none, none⟩], []⟩ := by
  simp [load_db]

/-- C2 amended: a failed load resets both relations to empty, discarding
the previous dataset; only a cancelled file selection leaves the previous
(possibly empty) dataset unchanged. -/
theorem load_db_failure_resets (s : Session) :
    load_db s .failure = ⟨[], []⟩ ∧ load_db s .cancelled = s :=
  ⟨rfl, rfl⟩

/-! ### C5, C10: per-category aggregation
(plot_top_models_for_specific_categories in both scripts) -/

/-- Aggregated row for one model inside one category: sum of correct,
count of rows, and the percentage computed from them. -/
structure CatStat where
  model_id : String
  correct_count : ℚ
  sample_count : ℕ
  percentage_correct : ℚ
deriving DecidableEq

/-- Comparison realised by sort_values on the aggregated percentage with
ascending False. -/
def catGe (a b : CatStat) : Prop :=
  b.percentage_correct ≤ a.percentage_correct

instance : DecidableRel catGe := fun a b =>
  inferInstanceAs (Decidable (b.percentage_correct ≤ a.percentage_correct))

instance : IsTotal CatStat catGe :=
  ⟨fun a b => le_total b.percentage_correct a.percentage_correct⟩

instance : IsTrans CatStat catGe :=
  ⟨fun _ _ _ h1 h2 => le_trans h2 h1⟩

/-- Numeric coercion applied in place to the correct column before the
category charts: to_numeric followed by fillna(0), so a null cell becomes
the number 0. -/
def coerceCorrect (r : RunRow) : RunRow :=
  { r with correct := some (r.correct.getD 0) }

/-- Columnwise form of coerceCorrect over a whole runs dataframe. -/
def coerceRunsCorrect (rs : List RunRow) : List RunRow :=
  rs.map coerceCorrect

/-- Sorted list of strings; groupby enumerates its keys in sorted order. -/
def sortStrings (l : List String) : List String :=
  List.insertionSort (fun a b => a ≤ b) l

/-- Grouping of category rows by model_id, as groupby(model_id).agg with
a sum and a count over the correct column: one triple
(model, correct_answers, total_questions) per distinct model. -/
def groupByModel (dfCat : List RunRow) : List (String × ℚ × ℕ) :=
  (sortStrings ((dfCat.map (fun r => r.model_id)).dedup)).map (fun m =>
    let mrs := dfCat.filter (fun r => r.model_id == m)
    (m, ((mrs.map (fun r => r.correct.getD 0)).sum, mrs.length)))

/-- Minimum-sample filter followed by the percentage column, as in the
source: keep groups whose count reaches minSamples, then add
percentage_correct = correct / total * 100. -/
def aggToStats (minSamples : ℕ) (agg : List (String × ℚ × ℕ)) : List CatStat :=
  (agg.filter (fun a => decide (minSamples ≤ a.2.2))).map
    (fun a => ⟨a.1, a.2.1, a.2.2, a.2.1 / (a.2.2 : ℚ) * 100⟩)

/-- Minimum sample count per (model, category) in the batch script. -/
def MIN_QUESTIONS_FOR_CATEGORY_PLOT : ℕ := 3

/-- Minimum sample count per (model, category) in the interactive script. -/
def MIN_QUESTIONS_INTERACTIVE : ℕ := 1

/-- Top-N cutoff of the per-category bar charts. -/
def TOP_N_MODELS_PER_CATEGORY : ℕ := 15

/-- Per-category statistics of the batch script: coerce the correct
column, keep the rows of the requested category, group by model, filter by
minSamples, compute percentages, sort descending, truncate to topN. -/
def categoryStats (runs : List RunRow) (category : String)
    (minSamples topN : ℕ) : List CatStat :=
  let df := coerceRunsCorrect runs
  let dfCat := df.filter (fun r => r.category == category)
  (List.insertionSort catGe (aggToStats minSamples (groupByModel dfCat))).take topN

/-- C5: categoryStats never emits a (model, category) group whose sample
count is below minSamples; and on a category that has only 2 samples with
minSamples = 3 the result is empty. -/
theorem category_stats_min_samples :
    (∀ (runs : List RunRow) (category : String) (minSamples topN : ℕ),
      ∀ s ∈ categoryStats runs category minSamples topN,
        minSamples ≤ s.sample_count) ∧
    categoryStats [⟨"A", "Math", some 1⟩, ⟨"A", "Math", some 0⟩] "Math" 3 15 = [] := by
  constructor
  · intro runs category minSamples topN s hs
    unfold categoryStats at hs
    have hs1 : s ∈ List.insertionSort catGe
        (aggToStats minSamples (groupByModel
          ((coerceRunsCorrect runs).filter (fun r => r.category == category)))) :=
      List.Sublist.mem hs (List.take_sublist _ _)
    rw [List.mem_insertionSort] at hs1
    unfold aggToStats at hs1
    rw [List.mem_map] at hs1
    obtain ⟨a, ha, rfl⟩ := hs1
    rw [List.mem_filter] at ha
    exact of_decide_eq_true ha.2
  · norm_num [categoryStats, coerceRunsCorrect, coerceCorrect, groupByModel,
      sortStrings, aggToStats]

/-- Witness for C5: on three Math rows of model A (2 correct out of 3) and
minSamples = 3, the single emitted group has sample count at least 3. -/
theorem category_stats_min_samples_witness :
    3 ≤ (CatStat.mk "A" 2 3 (200/3)).sample_count :=
  category_stats_min_samples.1
    [⟨"A", "Math", some 1⟩, ⟨"A", "Math", some 1⟩, ⟨"A", "Math", some 0⟩]
    "Math" 3 15 _
    (by norm_num [categoryStats, coerceRunsCorrect, coerceCorrect, groupByModel,
      sortStrings, aggToStats])

/-- Truthiness of the selected_models argument in Python: a list is truthy
exactly when it is nonempty, and None is falsy. -/
def truthySel (sel : Option (List String)) : Bool :=
  match sel with
  | some l => !l.isEmpty
  | none => false

/-- Rows drawn by the interactive overall-correctness bar chart
(igraph_stats.plot_overall_model_correctness_bar, lines 124-147): filter
to the selection when one is given, sort descending, and take the head
only when no selection is given. -/
def overallBarRows (ms : List ModelRow) (topN : ℕ)
    (sel : Option (List String)) : List ModelRow :=
  let dfToPlot :=
    if truthySel sel then ms.filter (fun r => (sel.getD []).contains r.model_id)
    else ms
  let sorted := sortByCorrectnessDesc dfToPlot
  if truthySel sel then sorted else sorted.take topN

/-- Aggregates drawn by the interactive per-category bar chart
(igraph_stats.plot_top_models_for_specific_categories, lines 445-515):
coerce correct, filter to the category, filter to the selection when one
is given, group, filter by the minimum sample count, sort descending, and
take the head only when no selection is given. -/
def categoryBarRowsInteractive (runs : List RunRow) (category : String)
    (sel : Option (List String)) (minSamples topN : ℕ) : List CatStat :=
  let df := coerceRunsCorrect runs
  let dfCat := df.filter (fun r => r.category == category)
  let dfSel :=
    if truthySel sel then dfCat.filter (fun r => (sel.getD []).contains r.model_id)
    else dfCat
  let sorted := List.insertionSort catGe (aggToStats minSamples (groupByModel dfSel))
  if truthySel sel then sorted else sorted.take topN

lemma truthySel_some {l : List String} (hl : l ≠ []) :
    truthySel (some l) = true := by
  simp [truthySel, hl]

/-- C10: with a non-empty selection, the interactive bar charts plot every
selected model present in the relevant data and apply no top-N truncation
(the plotted rows are exactly the sorted filtered rows); without a
selection the output is truncated to topN. -/
theorem selection_disables_truncation (ms : List ModelRow) (runs : List RunRow)
    (category : String) (topN : ℕ) (l : List String) (hl : l ≠ []) :
    (overallBarRows ms topN (some l)
        = sortByCorrectnessDesc (ms.filter (fun r => l.contains r.model_id))) ∧
    (∀ r ∈ ms, l.contains r.model_id → r ∈ overallBarRows ms topN (some l)) ∧
    (categoryBarRowsInteractive runs category (some l) MIN_QUESTIONS_INTERACTIVE topN
        = List.insertionSort catGe (aggToStats MIN_QUESTIONS_INTERACTIVE (groupByModel
            (((coerceRunsCorrect runs).filter (fun r => r.category == category)).filter
              (fun r => l.contains r.model_id))))) ∧
    (∀ m ∈ l, (∃ r ∈ runs, r.model_id = m ∧ r.category = category) →
      ∃ s ∈ categoryBarRowsInteractive runs category (some l)
          MIN_QUESTIONS_INTERACTIVE topN, s.model_id = m) ∧
    (overallBarRows ms topN none).length ≤ topN ∧
    (categoryBarRowsInteractive runs category none
        MIN_QUESTIONS_INTERACTIVE topN).length ≤ topN := by
  have ht := truthySel_some hl
  refine ⟨?_, ?_, ?_, ?_, ?_, ?_⟩
  · simp [overallBarRows, ht]
  · intro r hr hcont
    simp only [overallBarRows, ht, if_pos, Option.getD_some]
    rw [sortByCorrectnessDesc, List.mem_insertionSort, List.mem_filter]
    exact ⟨hr, hcont⟩
  · simp [categoryBarRowsInteractive, ht]
  · intro m hm ⟨r, hr, hrm, hrc⟩
    have hcr : coerceCorrect r ∈
        ((coerceRunsCorrect runs).filter (fun r => r.category == category)).filter
          (fun r => l.contains r.model_id) := by
      rw [List.mem_filter, List.mem_filter]
      refine ⟨⟨List.mem_map_of_mem coerceCorrect hr, ?_⟩, ?_⟩
      · simp [coerceCorrect, hrc]
      · simp [coerceCorrect, hrm, hm]
    set dfSel := ((coerceRunsCorrect runs).filter (fun r => r.category == category)).filter
      (fun r => l.contains r.model_id) with hdfSel
    have hmkey : m ∈ sortStrings ((dfSel.map (fun r => r.model_id)).dedup) := by
      rw [sortStrings, List.mem_insertionSort, List.mem_dedup]
      refine List.mem_map.mpr ⟨coerceCorrect r, hcr, ?_⟩
      simp [coerceCorrect, hrm]
    have hlen : 1 ≤ (dfSel.filter (fun r => r.model_id == m)).length := by
      have : coerceCorrect r ∈ dfSel.filter (fun r => r.model_id == m) := by
        rw [List.mem_filter]
        exact ⟨hcr, by simp [coerceCorrect, hrm]⟩
      have hne := List.ne_nil_of_mem this
      have := List.length_pos.mpr hne
      omega
    set mrs := dfSel.filter (fun r => r.model_id == m) with hmrs
    have hagg : (m, ((mrs.map (fun r => r.correct.getD 0)).sum, mrs.length))
        ∈ groupByModel dfSel := by
      rw [groupByModel]
      exact List.mem_map.mpr ⟨m, hmkey, rfl⟩
    have hstat : (⟨m, (mrs.map (fun r => r.correct.getD 0)).sum, mrs.length,
        (mrs.map (fun r => r.correct.getD 0)).sum / (mrs.length : ℚ) * 100⟩ : CatStat)
        ∈ aggToStats MIN_QUESTIONS_INTERACTIVE (groupByModel dfSel) := by
      rw [aggToStats, List.mem_map]
      refine ⟨(m, ((mrs.map (fun r => r.correct.getD 0)).sum, mrs.length)), ?_, rfl⟩
      rw [List.mem_filter]
      exact ⟨hagg, decide_eq_true hlen⟩
    refine ⟨⟨m, (mrs.map (fun r => r.correct.getD 0)).sum, mrs.length,
      (mrs.map (fun r => r.correct.getD 0)).sum / (mrs.length : ℚ) * 100⟩, ?_, rfl⟩
    simp only [categoryBarRowsInteractive, ht, if_pos, Option.getD_some]
    rw [List.mem_insertionSort]
    exact hstat
  · simp only [overallBarRows, truthySel]
    exact List.length_take_le topN _
  · simp only [categoryBarRowsInteractive, truthySel]
    exact List.length_take_le topN _

/-- Witness for C10 on concrete data: with the selection A over a
one-model relation and topN = 0 the model A row is still plotted. -/
theorem selection_disables_truncation_witness :
    (⟨"A", 80, none, none⟩ : ModelRow)
      ∈ overallBarRows [⟨"A", 80, none, none⟩] 0 (some ["A"]) :=
  (selection_disables_truncation [⟨"A", 80, none, none⟩] [] "Math" 0 ["A"]
    (by simp)).2.1 _ (List.mem_cons_self _ _) (by simp)

/-! ### C8: error-handling policy of the batch run (graph_stats.py main) -/

/-- Model_stats table as read from storage: its rows plus the presence of
the optional columns main inspects (lines 517-528). -/
structure ModelTable where
  rows : List ModelRow
  hasPercentageCol : Bool
  hasDerivableCols : Bool
deriving DecidableEq

/-- Benchmark_runs table as read from storage, with the presence of the
nullable category column (line 543). -/
structure RunsTable where
  rows : List RunRow
  hasCategoryCol : Bool
deriving DecidableEq

/-- Sqlite access outcome at the top of main: the database file may be
absent (line 502), a table read may raise DatabaseError (lines 508-513),
or both tables are read. -/
inductive DbAccess where
  | fileMissing
  | readError
  | ok (mt : ModelTable) (rt : RunsTable)
deriving DecidableEq

/-- Result of attempting one chart in the batch run: either the figure is
rendered or the chart is skipped with a printed diagnostic. -/
inductive ChartOutcome where
  | rendered (name : String)
  | skipped (name : String) (msg : String)
deriving DecidableEq

/-- Presence of the percentage_correct column after the derivation step of
main: it exists either because it was given or because it could be derived
from correct_answers and total_questions. -/
def pctColPresent (mt : ModelTable) : Bool :=
  mt.hasPercentageCol || mt.hasDerivableCols

/-- Guard of plot_overall_model_correctness_bar (lines 94-96): skip on an
empty dataframe or a missing percentage_correct column. -/
def overallBarOutcome (mt : ModelTable) : ChartOutcome :=
  if mt.rows.isEmpty || !(pctColPresent mt) then
    .skipped "overall_model_correctness_top_n_bar" "No data or percentage_correct column missing"
  else .rendered "overall_model_correctness_top_n_bar"

/-- Guards of plot_overall_model_speeds_scatter (lines 126-154): skip on an
empty dataframe or when no row keeps both speed values after the NaN drop. -/
def speedsScatterOutcome (mt : ModelTable) : ChartOutcome :=
  if mt.rows.isEmpty then .skipped "overall_model_speeds_scatter_labeled" "No data"
  else if (mt.rows.filter (fun r => r.promptSpeed.isSome && r.tokenSpeed.isSome)).isEmpty then
    .skipped "overall_model_speeds_scatter_labeled" "No models with speed data after NaN drop"
  else .rendered "overall_model_speeds_scatter_labeled"

/-- Guards of plot_speed_vs_quality (lines 256-274): skip on an empty
dataframe, a missing required column, or no rows after the NaN drop on the
chosen speed metric. -/
def speedVsQualityOutcome (mt : ModelTable) (metric : String)
    (speedOf : ModelRow → Option ℚ) : ChartOutcome :=
  if mt.rows.isEmpty then .skipped metric "No data"
  else if !(pctColPresent mt) then .skipped metric "Missing required columns"
  else if (mt.rows.filter (fun r => (speedOf r).isSome)).isEmpty then
    .skipped metric "No data after filtering"
  else .rendered metric

/-- Guards of plot_category_correctness_heatmap (lines 357-416): skip when
either input table is empty or a required column is missing; in every
other branch the function falls back to at least the overall column of the
nonempty top-model frame, so it renders. -/
def heatmapOutcome (rt : RunsTable) (mt : ModelTable) : ChartOutcome :=
  if rt.rows.isEmpty || mt.rows.isEmpty then
    .skipped "category_correctness_heatmap" "Missing benchmark_runs or model_stats data"
  else if !(pctColPresent mt) then
    .skipped "category_correctness_heatmap" "Missing required columns"
  else .rendered "category_correctness_heatmap"

/-- Per-category bar chart of the batch loop (lines 444-466): the chart of
one category is skipped via continue when no aggregated group survives the
guards, which is exactly when categoryStats is empty. -/
def categoryBarOutcome (rt : RunsTable) (category : String) : ChartOutcome :=
  if (categoryStats rt.rows category MIN_QUESTIONS_FOR_CATEGORY_PLOT
      TOP_N_MODELS_PER_CATEGORY).isEmpty then
    .skipped category "Not enough model data for category"
  else .rendered category

/-- Chart outcomes of one batch run over loaded tables, following the
structure of main lines 531-558: the overall block runs when model_stats
is nonempty, the category block when both tables are nonempty and the
category column exists; cats is the list of preselected categories present
in the data. -/
def mainCharts (mt : ModelTable) (rt : RunsTable) (cats : List String) :
    List ChartOutcome :=
  let overall :=
    if !mt.rows.isEmpty then
      [overallBarOutcome mt, speedsScatterOutcome mt,
        speedVsQualityOutcome mt "avg-prompt-eval-per-second_vs_quality_labeled"
          (fun r => r.promptSpeed),
        speedVsQualityOutcome mt "avg-tokens-per-second_vs_quality_labeled"
          (fun r => r.tokenSpeed)]
    else [.skipped "overall_plots" "model_stats table is empty or not found"]
  let categorySection :=
    if !rt.rows.isEmpty && !mt.rows.isEmpty then
      if rt.hasCategoryCol then
        heatmapOutcome rt mt :: cats.map (fun c => categoryBarOutcome rt c)
      else [.skipped "category_plots" "category column not found in benchmark_runs"]
    else [.skipped "category_plots" "benchmark_runs or model_stats table is empty"]
  overall ++ categorySection

/-- Outcome of the whole batch run: main returns before attempting any
chart when the database file is absent (line 504) and when reading a table
raises DatabaseError (line 513); otherwise every chart is attempted. -/
inductive RunOutcome where
  | aborted
  | completed (charts : List ChartOutcome)
deriving DecidableEq

/-- Whole batch run as a function of the database access outcome. -/
def mainRun (db : DbAccess) (cats : List String) : RunOutcome :=
  match db with
  | .fileMissing => .aborted
  | .readError => .aborted
  | .ok mt rt => .completed (mainCharts mt rt cats)

/-- C8 is false on the code: a DatabaseError while reading a table (table
missing or malformed content) also aborts the whole run before any chart
is attempted, even though the database file exists. -/
theorem main_abort_not_only_missing_file :
    mainRun .readError [] = .aborted ∧ DbAccess.readError ≠ DbAccess.fileMissing :=
  ⟨rfl, by simp⟩

/-- C8 amended: the batch run aborts exactly on absence of the database
file at startup or on a failed table read at startup, both before any
chart is attempted; once both tables are read, the run always completes,
each chart being either rendered or skipped with a diagnostic. -/
theorem main_abort_conditions (db : DbAccess) (cats : List String) :
    (mainRun db cats = .aborted ↔ db = .fileMissing ∨ db = .readError) ∧
    (∀ mt rt, mainRun (.ok mt rt) cats = .completed (mainCharts mt rt cats)) := by
  constructor
  · cases db <;> simp [mainRun]
  · intro mt rt
    rfl

/-! ### C9: the loaded relations are never mutated by a chart call -/

/-- Argument-passing mode of a chart call site: the caller hands the
renderer either a defensive copy of a session dataframe or the session
dataframe itself. -/
inductive ArgMode where
  | byCopy
  | byRef

/-- Effect of one chart call on the session dataset, given the call-site
argument mode and the in-place mutation the renderer body performs on the
runs dataframe it receives.  A mutation of a copy leaves the session
untouched; a mutation through an alias would rewrite the session. -/
def applyRunsRenderer (mode : ArgMode) (body : List RunRow → List RunRow)
    (s : Session) : Session :=
  match mode with
  | .byCopy => s
  | .byRef => { s with runs := body s.runs }

/-- Call-site mode of the heatmap in the batch script: main line 546
passes df_benchmark_runs.copy(). -/
def heatmapCallMode : ArgMode := .byCopy

/-- Call-site mode of the per-category bars in the batch script: main
line 552 passes df_benchmark_runs.copy(). -/
def categoryBarCallMode : ArgMode := .byCopy

/-- Call-site mode of the heatmap in the interactive script:
plot_category_heatmap_gui line 678 passes df_benchmark_runs_global.copy(). -/
def guiHeatmapCallMode : ArgMode := .byCopy

/-- Call-site mode of the per-category bars in the interactive script:
plot_category_bar_gui line 687 passes df_benchmark_runs_global.copy(). -/
def guiCategoryBarCallMode : ArgMode := .byCopy

/-- C9: each runs-mutating chart call (the heatmap and the per-category
bars are the renderers that assign to a column of the dataframe they
receive) leaves the session dataset unchanged, because every call site
hands the renderer a defensive copy; and the renderer body is a genuine
mutation, so the copy is what protects the session (a null correct cell
really is rewritten to 0). -/
theorem chart_calls_leave_session_unchanged (s : Session) :
    applyRunsRenderer heatmapCallMode coerceRunsCorrect s = s ∧
    applyRunsRenderer categoryBarCallMode coerceRunsCorrect s = s ∧
    applyRunsRenderer guiHeatmapCallMode coerceRunsCorrect s = s ∧
    applyRunsRenderer guiCategoryBarCallMode coerceRunsCorrect s = s ∧
    coerceRunsCorrect [⟨"A", "Math", none⟩] ≠ [⟨"A", "Math", none⟩] := by
  refine ⟨rfl, rfl, rfl, rfl, ?_⟩
  simp [coerceRunsCorrect, coerceCorrect]

/-- Witness for C9 at a concrete session. -/
theorem chart_calls_leave_session_unchanged_witness :
    applyRunsRenderer heatmapCallMode coerceRunsCorrect
      ⟨[⟨"A", 80, none, none⟩], [⟨"A", "Math", none⟩]⟩
      = ⟨[⟨"A", 80, none, none⟩], [⟨"A", "Math", none⟩]⟩ :=
  (chart_calls_leave_session_unchanged _).1

/-! ### C7: equal-frequency bucketing, pd.qcut with labels False and
duplicates drop (graph_stats.py line 170, igraph_stats.py line 212) -/

/-- Value at position i of a list of rationals, 0 outside the range. -/
def nthVal (s : List ℚ) (i : ℕ) : ℚ := s.getD i 0

/-- Ascending sort of the value distribution. -/
def sortedOf (values : List ℚ) : List ℚ :=
  List.insertionSort (fun a b : ℚ => a ≤ b) values

/-- Smallest value of the distribution (head of the ascending sort). -/
def minVal (values : List ℚ) : ℚ := nthVal (sortedOf values) 0

/-- Largest value of the distribution (last of the ascending sort). -/
def maxVal (values : List ℚ) : ℚ := nthVal (sortedOf values) (values.length - 1)

/-- Linear-interpolation quantile of a sorted list at fraction q, as the
quantile computation behind qcut: position p = q (n - 1), interpolating
between the two neighbouring order statistics. -/
def quantileAt (s : List ℚ) (q : ℚ) : ℚ :=
  let n := s.length
  let p := q * ((n : ℚ) - 1)
  let i := (⌊p⌋).toNat
  let f := p - ((⌊p⌋ : ℤ) : ℚ)
  nthVal s i + f * (nthVal s (min (i + 1) (n - 1)) - nthVal s i)

/-- Quantile bin edges of qcut over k buckets: quantiles at 0, 1/k, ..., 1. -/
def qcutEdges (values : List ℚ) (k : ℕ) : List ℚ :=
  (List.range (k + 1)).map
    (fun i : ℕ => quantileAt (sortedOf values) ((i : ℚ) / (k : ℚ)))

/-- Deduplicated bin edges, as selected by duplicates drop. -/
def qcutBins (values : List ℚ) (k : ℕ) : List ℚ := (qcutEdges values k).dedup

/-- Number of buckets actually formed, possibly fewer than k when
duplicate edges collapsed. -/
def qcutNumBuckets (values : List ℚ) (k : ℕ) : ℕ := (qcutBins values k).length - 1

/-- Bucket index qcut assigns to a value.  With distinct bins
e0 < e1 < ... < em the intervals are right-closed and the lowest interval
also contains its left edge, so a value v between e0 and em lands in the
interval whose index is one less than the number of bins strictly below v
(truncated subtraction sends the left-most value to bucket 0).  A value
outside the bins, or a bin list shorter than two edges, yields no bucket
(a NaN label). -/
def qcutBucket (values : List ℚ) (k : ℕ) (v : ℚ) : Option ℕ :=
  let B := qcutBins values k
  if 2 ≤ B.length ∧ (∃ b ∈ B, b ≤ v) ∧ (∃ b ∈ B, v ≤ b) then
    some (B.countP (fun b => decide (b < v)) - 1)
  else none

lemma sorted_sortedOf (values : List ℚ) :
    List.Sorted (fun a b : ℚ => a ≤ b) (sortedOf values) :=
  List.sorted_insertionSort _ values

lemma length_sortedOf (values : List ℚ) : (sortedOf values).length = values.length :=
  (List.perm_insertionSort _ values).length_eq

lemma nthVal_mono (s : List ℚ) (hs : List.Sorted (fun a b : ℚ => a ≤ b) s)
    {i j : ℕ} (hij : i ≤ j) (hj : j < s.length) : nthVal s i ≤ nthVal s j := by
  rcases Nat.eq_or_lt_of_le hij with rfl | hlt
  · exact le_refl _
  · have hi : i < s.length := lt_trans hlt hj
    rw [nthVal, nthVal, List.getD_eq_getElem _ _ hi, List.getD_eq_getElem _ _ hj]
    exact List.pairwise_iff_getElem.mp hs i j hi hj hlt

lemma mem_sorted_bounds {values : List ℚ} (hne : values ≠ []) {v : ℚ}
    (hv : v ∈ values) : minVal values ≤ v ∧ v ≤ maxVal values := by
  have hperm := List.perm_insertionSort (fun a b : ℚ => a ≤ b) values
  have hvs : v ∈ sortedOf values := by
    rw [sortedOf]
    exact hperm.mem_iff.mpr hv
  obtain ⟨n, hn, rfl⟩ := List.mem_iff_getElem.mp hvs
  have hpos : 0 < values.length := List.length_pos.mpr hne
  have hlen := length_sortedOf values
  constructor
  · have h := nthVal_mono _ (sorted_sortedOf values) (Nat.zero_le n) hn
    rw [minVal]
    simp only [nthVal] at h ⊢
    rwa [List.getD_eq_getElem _ _ hn] at h
  · have hup : n ≤ values.length - 1 := by omega
    have hlt : values.length - 1 < (sortedOf values).length := by omega
    have h := nthVal_mono _ (sorted_sortedOf values) hup hlt
    rw [maxVal]
    simp only [nthVal] at h ⊢
    rwa [List.getD_eq_getElem _ _ hn] at h

lemma quantileAt_bounds (values : List ℚ) (hne : values ≠ []) (q : ℚ)
    (h0 : 0 ≤ q) (h1 : q ≤ 1) :
    minVal values ≤ quantileAt (sortedOf values) q ∧
      quantileAt (sortedOf values) q ≤ maxVal values := by
  have hlen := length_sortedOf values
  have hpos : 0 < values.length := List.length_pos.mpr hne
  have hslen : 0 < (sortedOf values).length := by omega
  rw [quantileAt]
  set s := sortedOf values with hsdef
  set n := s.length with hn
  set p := q * ((n : ℚ) - 1) with hp
  have hn1 : (0 : ℚ) ≤ (n : ℚ) - 1 := by
    have h1n : (1 : ℚ) ≤ (n : ℚ) := by exact_mod_cast hslen
    linarith
  have hp0 : 0 ≤ p := mul_nonneg h0 hn1
  have hp1 : p ≤ (n : ℚ) - 1 := by
    calc p ≤ 1 * ((n : ℚ) - 1) := mul_le_mul_of_nonneg_right h1 hn1
    _ = (n : ℚ) - 1 := one_mul _
  have hfl0 : 0 ≤ ⌊p⌋ := Int.floor_nonneg.mpr hp0
  have hfl1 : ⌊p⌋ ≤ (n : ℤ) - 1 := by
    have h := Int.floor_le_floor hp1
    have h2 : ⌊(n : ℚ) - 1⌋ = (n : ℤ) - 1 := by
      rw [show ((n : ℚ) - 1) = ((n : ℤ) - 1 : ℤ) from by push_cast; ring]
      exact Int.floor_intCast _
    omega
  set i := (⌊p⌋).toNat with hi
  have hin : i < n := by omega
  set j := min (i + 1) (n - 1) with hj
  have hjn : j < n := by omega
  have hij : i ≤ j := by omega
  have hf0 : 0 ≤ p - ((⌊p⌋ : ℤ) : ℚ) := sub_nonneg.mpr (Int.floor_le p)
  have hf1 : p - ((⌊p⌋ : ℤ) : ℚ) ≤ 1 := by
    have h := Int.lt_floor_add_one p
    linarith
  have hmono := nthVal_mono s (by rw [hsdef]; exact sorted_sortedOf values) hij hjn
  have hd0 : 0 ≤ nthVal s j - nthVal s i := sub_nonneg.mpr hmono
  constructor
  · have hlow : minVal values ≤ nthVal s i := by
      have h := nthVal_mono s (by rw [hsdef]; exact sorted_sortedOf values)
        (Nat.zero_le i) hin
      rw [minVal, ← hsdef]
      exact h
    have hmul : 0 ≤ (p - ((⌊p⌋ : ℤ) : ℚ)) * (nthVal s j - nthVal s i) :=
      mul_nonneg hf0 hd0
    linarith
  · have hhigh : nthVal s j ≤ maxVal values := by
      have hup : j ≤ values.length - 1 := by omega
      have hlt : values.length - 1 < s.length := by omega
      have h := nthVal_mono s (by rw [hsdef]; exact sorted_sortedOf values) hup hlt
      rw [maxVal, ← hsdef]
      exact h
    have hmul : (p - ((⌊p⌋ : ℤ) : ℚ)) * (nthVal s j - nthVal s i)
        ≤ nthVal s j - nthVal s i := mul_le_of_le_one_left hd0 hf1
    linarith

lemma qcutEdges_bounds (values : List ℚ) (hne : values ≠ []) (k : ℕ) :
    ∀ b ∈ qcutEdges values k, minVal values ≤ b ∧ b ≤ maxVal values := by
  intro b hb
  rw [qcutEdges, List.mem_map] at hb
  obtain ⟨i, hi, rfl⟩ := hb
  rw [List.mem_range] at hi
  rcases Nat.eq_zero_or_pos k with rfl | hk
  · have : i = 0 := by omega
    subst this
    norm_num
    have h := quantileAt_bounds values hne 0 le_rfl zero_le_one
    simpa using h
  · apply quantileAt_bounds values hne
    · positivity
    · rw [div_le_one (by exact_mod_cast hk)]
      exact_mod_cast Nat.le_of_lt_succ hi

lemma quantileAt_zero (values : List ℚ) :
    quantileAt (sortedOf values) 0 = minVal values := by
  rw [quantileAt, minVal]
  norm_num

lemma quantileAt_one (values : List ℚ) (hne : values ≠ []) :
    quantileAt (sortedOf values) 1 = maxVal values := by
  have hpos : 0 < values.length := List.length_pos.mpr hne
  have hlen := length_sortedOf values
  rw [quantileAt, maxVal]
  have hcast : ((sortedOf values).length : ℚ) - 1 = ((values.length - 1 : ℕ) : ℚ) := by
    rw [hlen, Nat.cast_sub hpos]
    norm_num
  rw [one_mul, hcast, Int.floor_natCast]
  simp [hlen]

lemma minVal_mem_qcutEdges (values : List ℚ) (k : ℕ) (hk : 0 < k) :
    minVal values ∈ qcutEdges values k := by
  rw [qcutEdges, List.mem_map]
  refine ⟨0, List.mem_range.mpr (by omega), ?_⟩
  rw [show ((0 : ℕ) : ℚ) / (k : ℚ) = 0 by norm_num]
  exact quantileAt_zero values

lemma maxVal_mem_qcutEdges (values : List ℚ) (hne : values ≠ []) (k : ℕ) (hk : 0 < k) :
    maxVal values ∈ qcutEdges values k := by
  rw [qcutEdges, List.mem_map]
  refine ⟨k, List.mem_range.mpr (by omega), ?_⟩
  rw [div_self (by exact_mod_cast hk.ne' : (k : ℚ) ≠ 0)]
  exact quantileAt_one values hne

lemma two_le_length_of_two_mem {α : Type} {a b : α} {l : List α}
    (ha : a ∈ l) (hb : b ∈ l) (hab : a ≠ b) : 2 ≤ l.length := by
  match l with
  | [] => cases ha
  | [x] =>
      rw [List.mem_singleton] at ha hb
      exact absurd (ha.trans hb.symm) hab
  | x :: y :: t =>
      simp only [List.length_cons]
      omega

lemma countP_lt_of_mem_not {α : Type} {p : α → Bool} {l : List α} {a : α}
    (ha : a ∈ l) (hpa : ¬ p a = true) : l.countP p < l.length := by
  rcases Nat.lt_or_ge (l.countP p) l.length with h | h
  · exact h
  · have heq : l.countP p = l.length := le_antisymm (List.countP_le_length _) h
    rw [List.countP_eq_length] at heq
    exact absurd (heq a ha) hpa

lemma countP_lt_max (B : List ℚ) (hnd : B.Nodup) (m : ℚ) (hm : m ∈ B)
    (hb : ∀ b ∈ B, b ≤ m) :
    B.countP (fun b => decide (b < m)) = B.length - 1 := by
  induction B with
  | nil => cases hm
  | cons x xs ih =>
      rw [List.countP_cons]
      rw [List.nodup_cons] at hnd
      rcases List.mem_cons.mp hm with rfl | hmx
      · have hx : decide (m < m) = false := by simp
        rw [hx]
        have hall : xs.countP (fun b => decide (b < m)) = xs.length := by
          rw [List.countP_eq_length]
          intro b hbx
          have hble := hb b (List.mem_cons_of_mem _ hbx)
          have hbne : b ≠ m := fun h => hnd.1 (h ▸ hbx)
          simp [lt_of_le_of_ne hble hbne]
        simp [hall]
      · have hxm : x ≠ m := fun h => hnd.1 (h ▸ hmx)
        have hxlt : x < m :=
          lt_of_le_of_ne (hb x (List.mem_cons_self _ _)) hxm
        rw [ih hnd.2 hmx (fun b hb2 => hb b (List.mem_cons_of_mem _ hb2))]
        have h1 : 1 ≤ xs.length := List.length_pos.mpr (List.ne_nil_of_mem hmx)
        simp only [hxlt, decide_eq_true_eq, if_pos, List.length_cons]
        omega

lemma sortedOf_singleton (c : ℚ) : sortedOf [c] = [c] := by
  simp [sortedOf]

lemma quantileAt_singleton (c q : ℚ) : quantileAt (sortedOf [c]) q = c := by
  rw [sortedOf_singleton, quantileAt]
  norm_num [nthVal]

lemma qcutBins_singleton (c : ℚ) (k : ℕ) : qcutBins [c] k = [c] := by
  rw [qcutBins, qcutEdges]
  rw [show (fun i : ℕ => quantileAt (sortedOf [c]) ((i : ℚ) / (k : ℚ)))
      = fun _ : ℕ => c from funext (fun i => quantileAt_singleton c _)]
  rw [List.map_const', List.length_range]
  exact List.replicate_dedup (Nat.succ_ne_zero k)

/-- C7 is false on the code as universally stated: on a constant
distribution all quantile edges coincide, duplicates drop collapses them
to a single boundary, and qcut labels every value NaN.  Concretely, on the
one-value distribution 5 with five requested buckets the minimum value
receives no bucket at all, not bucket 0. -/
theorem qcut_bucket_constant_counterexample :
    minVal [5] = 5 ∧ qcutBucket [5] 5 (minVal [5]) = none := by
  constructor
  · simp [minVal, sortedOf_singleton, nthVal]
  · simp [qcutBucket, qcutBins_singleton]

/-- C7 amended: over a distribution with at least two distinct values and
at least one requested bucket, qcut with k buckets gives every value of
the distribution a bucket index below k; the minimum value gets bucket 0;
the maximum value gets the last (highest) bucket, every assigned index
being at most that one; and duplicate edges only collapse the bucket
count (the number of buckets formed never exceeds k), they never make the
assignment fail.  On a constant distribution the edges collapse to one
boundary and every value is left unbucketed, as the counterexample
records. -/
theorem qcut_bucket_spec (values : List ℚ) (k : ℕ) (hne : values ≠ [])
    (hk : 0 < k) (hd : minVal values < maxVal values) :
    (∀ v ∈ values, ∃ i, qcutBucket values k v = some i ∧ i < k) ∧
    qcutBucket values k (minVal values) = some 0 ∧
    qcutBucket values k (maxVal values) = some (qcutNumBuckets values k - 1) ∧
    (∀ v ∈ values, ∀ i, qcutBucket values k v = some i →
      i ≤ qcutNumBuckets values k - 1) ∧
    qcutNumBuckets values k ≤ k := by
  have hminB : minVal values ∈ qcutBins values k :=
    List.mem_dedup.mpr (minVal_mem_qcutEdges values k hk)
  have hmaxB : maxVal values ∈ qcutBins values k :=
    List.mem_dedup.mpr (maxVal_mem_qcutEdges values hne k hk)
  have hB2 : 2 ≤ (qcutBins values k).length :=
    two_le_length_of_two_mem hminB hmaxB (ne_of_lt hd)
  have hbounds : ∀ b ∈ qcutBins values k, minVal values ≤ b ∧ b ≤ maxVal values :=
    fun b hb => qcutEdges_bounds values hne k b (List.mem_dedup.mp hb)
  have hBk : (qcutBins values k).length ≤ k + 1 := by
    have h1 := (List.dedup_sublist (qcutEdges values k)).length_le
    have h2 : (qcutEdges values k).length = k + 1 := by
      rw [qcutEdges, List.length_map, List.length_range]
    rw [qcutBins]
    omega
  have hnodup : (qcutBins values k).Nodup := List.nodup_dedup _
  have hbucket : ∀ v : ℚ, minVal values ≤ v → v ≤ maxVal values →
      qcutBucket values k v
        = some ((qcutBins values k).countP (fun b => decide (b < v)) - 1) := by
    intro v h1 h2
    simp only [qcutBucket]
    rw [if_pos ⟨hB2, ⟨minVal values, hminB, h1⟩, ⟨maxVal values, hmaxB, h2⟩⟩]
  have hcount_lt : ∀ v : ℚ, v ≤ maxVal values →
      (qcutBins values k).countP (fun b => decide (b < v))
        < (qcutBins values k).length := by
    intro v h2
    exact countP_lt_of_mem_not hmaxB (by simpa using not_lt.mpr h2)
  refine ⟨?_, ?_, ?_, ?_, ?_⟩
  · intro v hv
    obtain ⟨h1, h2⟩ := mem_sorted_bounds hne hv
    refine ⟨_, hbucket v h1 h2, ?_⟩
    have := hcount_lt v h2
    omega
  · rw [hbucket _ le_rfl (le_of_lt hd)]
    have hzero :
        (qcutBins values k).countP (fun b => decide (b < minVal values)) = 0 := by
      rw [List.countP_eq_zero]
      intro b hb
      simp only [decide_eq_true_eq]
      exact not_lt.mpr (hbounds b hb).1
    rw [hzero]
  · rw [hbucket _ (le_of_lt hd) le_rfl,
      countP_lt_max _ hnodup _ hmaxB (fun b hb => (hbounds b hb).2),
      qcutNumBuckets]
  · intro v hv i hqi
    obtain ⟨h1, h2⟩ := mem_sorted_bounds hne hv
    rw [hbucket v h1 h2] at hqi
    have hlt := hcount_lt v h2
    have hi := Option.some.inj hqi
    rw [qcutNumBuckets]
    omega
  · rw [qcutNumBuckets]
    omega

/-- Witness for C7 at the concrete two-point distribution 0, 10 with five
requested buckets: the minimum value is assigned bucket 0. -/
theorem qcut_bucket_spec_witness :
    qcutBucket [0, 10] 5 (minVal [0, 10]) = some 0 :=
  (qcut_bucket_spec [0, 10] 5 (by simp) (by norm_num)
    (by norm_num [minVal, maxVal, sortedOf, nthVal])).2.1

end Viceroy
